/-
  Verification of the edyn rigid-body physics engine core.

  Shallow embedding of the constraint solver (dynamics/solver.cpp), the
  contact constraint preparation and iteration (constraints/contact_constraint.cpp),
  the broadphase worker (collision/broadphase_worker.cpp), the island worker's
  step-finishing and sleep logic (parallel/island_worker.cpp) and rigid body
  construction (util/rigidbody.cpp).  Scalars are modelled as rationals.
-/
import Mathlib

namespace Edyn

/-- 3D vector over rational scalars (`edyn::vector3`). -/
structure Vec3 where
  x : ℚ
  y : ℚ
  z : ℚ
deriving DecidableEq, Repr

namespace Vec3

def add (a b : Vec3) : Vec3 := ⟨a.x + b.x, a.y + b.y, a.z + b.z⟩

def sub (a b : Vec3) : Vec3 := ⟨a.x - b.x, a.y - b.y, a.z - b.z⟩

def neg (a : Vec3) : Vec3 := ⟨-a.x, -a.y, -a.z⟩

def smul (s : ℚ) (a : Vec3) : Vec3 := ⟨s * a.x, s * a.y, s * a.z⟩

instance : Add Vec3 := ⟨add⟩

instance : Sub Vec3 := ⟨sub⟩

instance : Neg Vec3 := ⟨neg⟩

def dot (a b : Vec3) : ℚ := a.x * b.x + a.y * b.y + a.z * b.z

def cross (a b : Vec3) : Vec3 :=
  ⟨a.y * b.z - a.z * b.y, a.z * b.x - a.x * b.z, a.x * b.y - a.y * b.x⟩

def length_sqr (a : Vec3) : ℚ := dot a a

/-- `edyn::vector3_zero`. -/
def zero : Vec3 := ⟨0, 0, 0⟩

/-- `edyn::vector3_one`. -/
def one : Vec3 := ⟨1, 1, 1⟩

/-- `edyn::vector3_x`. -/
def unit_x : Vec3 := ⟨1, 0, 0⟩

/-- Componentwise `≤`, used for AABB intersection tests. -/
def le (a b : Vec3) : Prop := a.x ≤ b.x ∧ a.y ≤ b.y ∧ a.z ≤ b.z

instance : DecidablePred (fun p : Vec3 × Vec3 => le p.1 p.2) := fun _ => by
  unfold le; infer_instance

instance decLe (a b : Vec3) : Decidable (le a b) := by unfold le; infer_instance

end Vec3

/-- 3×3 matrix stored as three rows (`edyn::matrix3x3`). -/
structure Mat3 where
  r0 : Vec3
  r1 : Vec3
  r2 : Vec3
deriving DecidableEq, Repr

namespace Mat3

def mulVec (m : Mat3) (v : Vec3) : Vec3 :=
  ⟨Vec3.dot m.r0 v, Vec3.dot m.r1 v, Vec3.dot m.r2 v⟩

/-- `edyn::matrix3x3_zero`. -/
def zero : Mat3 := ⟨Vec3.zero, Vec3.zero, Vec3.zero⟩

end Mat3

/-- Unit quaternion (`edyn::quaternion`), components x, y, z, w. -/
structure Quat where
  x : ℚ
  y : ℚ
  z : ℚ
  w : ℚ
deriving DecidableEq, Repr

/-- Modelled from the spec: `rotate(q, v)` is the standard 3D-math rotation of a
vector by a unit quaternion, `v + 2 w (u × v) + 2 u × (u × v)` with `u = (x,y,z)`.
The implementation of `rotate` is not part of the sources under verification
(the spec treats vector/matrix primitives as standard 3D math). -/
def rotate (q : Quat) (v : Vec3) : Vec3 :=
  let u : Vec3 := ⟨q.x, q.y, q.z⟩
  let c := Vec3.cross u v
  v + Vec3.smul (2 * q.w) c + Vec3.smul 2 (Vec3.cross u c)

/-- A linearized constraint row (`edyn::constraint_row`).  The C++ struct holds
pointers `dvA, dwA, dvB, dwB` into the bodies' delta-velocity accumulators; here
the pointers are replaced by the accumulator indices `idxA`, `idxB`. -/
structure constraint_row where
  J0 : Vec3
  J1 : Vec3
  J2 : Vec3
  J3 : Vec3
  eff_mass : ℚ
  rhs : ℚ
  lower_limit : ℚ
  upper_limit : ℚ
  impulse : ℚ
  inv_mA : ℚ
  inv_mB : ℚ
  inv_IA : Mat3
  inv_IB : Mat3
  idxA : ℕ
  idxB : ℕ
deriving DecidableEq, Repr

/-- The per-body delta-velocity accumulators: index ↦ (delta_linvel, delta_angvel). -/
def DeltaVel := ℕ → Vec3 × Vec3

/-- Pointwise update of one body's accumulator. -/
def DeltaVel.updAt (st : DeltaVel) (i : ℕ) (f : Vec3 × Vec3 → Vec3 × Vec3) : DeltaVel :=
  fun j => if j = i then f (st j) else st j

/-- `solve(constraint_row &row)` from dynamics/solver.cpp: computes the impulse
delta from the current delta velocities, clamps the accumulated impulse to the
row's limits, and returns the (possibly adjusted) delta. -/
def solve (st : DeltaVel) (row : constraint_row) : ℚ × constraint_row :=
  let delta_relvel := Vec3.dot row.J0 (st row.idxA).1 + Vec3.dot row.J1 (st row.idxA).2 +
                      Vec3.dot row.J2 (st row.idxB).1 + Vec3.dot row.J3 (st row.idxB).2
  let delta_impulse := (row.rhs - delta_relvel) * row.eff_mass
  let impulse := row.impulse + delta_impulse
  if impulse < row.lower_limit then
    (row.lower_limit - row.impulse, { row with impulse := row.lower_limit })
  else if impulse > row.upper_limit then
    (row.upper_limit - row.impulse, { row with impulse := row.upper_limit })
  else
    (delta_impulse, { row with impulse := impulse })

/-- Modelled from the spec: `apply_impulse(delta_impulse, row)` applies
`Δv += M⁻¹·Jᵀ·Δλ` to both bodies' delta-velocity accumulators.  The function
itself is not in the sources under verification (only its call sites are). -/
def apply_impulse (di : ℚ) (row : constraint_row) (st : DeltaVel) : DeltaVel :=
  let st1 := st.updAt row.idxA (fun p =>
    (p.1 + Vec3.smul (row.inv_mA * di) row.J0, p.2 + row.inv_IA.mulVec (Vec3.smul di row.J1)))
  st1.updAt row.idxB (fun p =>
    (p.1 + Vec3.smul (row.inv_mB * di) row.J2, p.2 + row.inv_IB.mulVec (Vec3.smul di row.J3)))

/-- Modelled from the spec: `warm_start(row)` applies the previous step's
accumulated impulse to the bodies' delta-velocities (same velocity update as
`apply_impulse`, using the row's current accumulated impulse). -/
def warm_start (row : constraint_row) (st : DeltaVel) : DeltaVel :=
  apply_impulse row.impulse row st

/-- The inner row loop of one solver iteration (solver.cpp, `solver::update`):
for each row in cache order, solve it and apply the returned impulse delta. -/
def solveRows : DeltaVel → List constraint_row → DeltaVel × List constraint_row
  | st, [] => (st, [])
  | st, r :: rs =>
    let s := solve st r
    let st1 := apply_impulse s.1 s.2 st
    let rec2 := solveRows st1 rs
    (rec2.1, s.2 :: rec2.2)

/-- The fixed-iteration solver loop of `solver::update`: each pass first calls
`iterate_constraints` (here an arbitrary per-iteration row transformation
`iter`) and then solves every row in cache order. -/
def solverIterations (iter : List constraint_row → List constraint_row) :
    ℕ → DeltaVel → List constraint_row → DeltaVel × List constraint_row
  | 0, st, rows => (st, rows)
  | n + 1, st, rows =>
    let rows1 := iter rows
    let p := solveRows st rows1
    solverIterations iter n p.1 p.2

/-- A contact point (`edyn::contact_point`), the fields read during constraint
preparation. -/
structure contact_point where
  pivotA : Vec3
  pivotB : Vec3
  normalB : Vec3
  distance : ℚ
  restitution : ℚ
  friction : ℚ
  lifetime : ℚ
deriving DecidableEq, Repr

/-- The components fetched from the body view in
`prepare_constraints<contact_constraint>`: position, orientation, velocities,
inverse mass, world inverse inertia, and the index of the body's delta-velocity
accumulator (standing for the `delta_linvel`/`delta_angvel` references). -/
structure body_state where
  pos : Vec3
  orn : Quat
  linvel : Vec3
  angvel : Vec3
  inv_m : ℚ
  inv_I : Mat3
  idx : ℕ
deriving DecidableEq, Repr

/-- One entry of the `contact_constraint, contact_point` view together with the
bodies' states and the persistent `constraint_impulse` values `imp.values[0..1]`. -/
structure contact_input where
  bodyA : body_state
  bodyB : body_state
  stiffness : ℚ
  damping : ℚ
  cp : contact_point
  imp0 : ℚ
  imp1 : ℚ
deriving DecidableEq, Repr

/-- Ambient numeric context: `sqrt_fn` stands for the floating-point square
root used by `length`, `epsilon` for `EDYN_EPSILON` and `large_scalar` for
`edyn::large_scalar` (none of which are defined in the sources under
verification). -/
structure math_ctx where
  sqrt_fn : ℚ → ℚ
  epsilon : ℚ
  large_scalar : ℚ

/-- `edyn::constraint_row_options`: restitution and position error fed to
`prepare_row`. -/
structure constraint_row_options where
  restitution : ℚ := 0
  error : ℚ := 0
deriving DecidableEq, Repr

/-- Modelled from the spec: `prepare_row` computes the effective mass
`1 / (Jᵀ·M⁻¹·J)` and `rhs = −(1+restitution)·(J·v) − error/dt`.  The function
itself is not in the sources under verification (only its call sites are). -/
def prepare_row (row : constraint_row) (opts : constraint_row_options) (dt : ℚ)
    (linvelA linvelB angvelA angvelB : Vec3) : constraint_row :=
  let JinvMJ := Vec3.dot row.J0 row.J0 * row.inv_mA +
                Vec3.dot row.J1 (row.inv_IA.mulVec row.J1) +
                Vec3.dot row.J2 row.J2 * row.inv_mB +
                Vec3.dot row.J3 (row.inv_IB.mulVec row.J3)
  let relvel := Vec3.dot row.J0 linvelA + Vec3.dot row.J1 angvelA +
                Vec3.dot row.J2 linvelB + Vec3.dot row.J3 angvelB
  { row with eff_mass := 1 / JinvMJ,
             rhs := -((1 + opts.restitution) * relvel) - opts.error / dt }

/-- The error term of the contact normal row, from
`prepare_constraints<contact_constraint>` (contact_constraint.cpp, lines
69–86): with `penetration = dot(posA + rA − posB − rB, normal)` and
`pvel = penetration / dt`, the error is `max(pvel, 0)` when `penetration > 0`
and `pvel > −restitution·normal_relvel`, else `min(pvel, 0)`. -/
def contact_normal_error (dt : ℚ) (c : contact_input) : ℚ :=
  let normal := rotate c.bodyB.orn c.cp.normalB
  let rA := rotate c.bodyA.orn c.cp.pivotA
  let rB := rotate c.bodyB.orn c.cp.pivotB
  let vA := c.bodyA.linvel + Vec3.cross c.bodyA.angvel rA
  let vB := c.bodyB.linvel + Vec3.cross c.bodyB.angvel rB
  let normal_relvel := Vec3.dot (vA - vB) normal
  let penetration := Vec3.dot (c.bodyA.pos + rA - c.bodyB.pos - rB) normal
  let pvel := penetration / dt
  if 0 < penetration ∧ -c.cp.restitution * normal_relvel < pvel then
    max pvel 0
  else
    min pvel 0

/-- The spec's description of the normal-row error term, written from the
claim: if `penetration > 0` (the spec's "penetrating") and the velocity
required to close the gap in `dt` exceeds the bounce velocity
`−restitution·v_n`, the error is `max(penetration/dt, 0)`; otherwise it is
`min(penetration/dt, 0)`, where
`penetration = dot(posA + rA − posB − rB, normal)`. -/
def contact_normal_error_spec (dt : ℚ) (c : contact_input) : ℚ :=
  let normal := rotate c.bodyB.orn c.cp.normalB
  let rA := rotate c.bodyA.orn c.cp.pivotA
  let rB := rotate c.bodyB.orn c.cp.pivotB
  let penetration := Vec3.dot (c.bodyA.pos + rA - c.bodyB.pos - rB) normal
  let v_n := Vec3.dot ((c.bodyA.linvel + Vec3.cross c.bodyA.angvel rA) -
                       (c.bodyB.linvel + Vec3.cross c.bodyB.angvel rB)) normal
  let close_vel := penetration / dt
  let bounce_vel := -c.cp.restitution * v_n
  if 0 < penetration ∧ bounce_vel < close_vel then
    max (penetration / dt) 0
  else
    min (penetration / dt) 0

/-- Preparation of the two rows of one contact constraint
(`prepare_constraints<contact_constraint>`, contact_constraint.cpp lines
36–113): returns the normal row, the friction row, and the friction
coefficient stored into `con.m_friction` (the contact point's friction). -/
def prepare_contact_one (ctx : math_ctx) (dt : ℚ) (c : contact_input) :
    constraint_row × constraint_row × ℚ :=
  let normal := rotate c.bodyB.orn c.cp.normalB
  let rA := rotate c.bodyA.orn c.cp.pivotA
  let rB := rotate c.bodyB.orn c.cp.pivotB
  let vA := c.bodyA.linvel + Vec3.cross c.bodyA.angvel rA
  let vB := c.bodyB.linvel + Vec3.cross c.bodyB.angvel rB
  let relvel := vA - vB
  let normal_relvel := Vec3.dot relvel normal
  let upper := if c.stiffness < ctx.large_scalar then
      |c.cp.distance * c.stiffness + normal_relvel * c.damping| * dt
    else ctx.large_scalar
  let normal_row0 : constraint_row :=
    { J0 := normal, J1 := Vec3.cross rA normal,
      J2 := -normal, J3 := -(Vec3.cross rB normal),
      eff_mass := 0, rhs := 0,
      lower_limit := 0, upper_limit := upper,
      impulse := c.imp0,
      inv_mA := c.bodyA.inv_m, inv_mB := c.bodyB.inv_m,
      inv_IA := c.bodyA.inv_I, inv_IB := c.bodyB.inv_I,
      idxA := c.bodyA.idx, idxB := c.bodyB.idx }
  let normal_options : constraint_row_options :=
    { restitution := c.cp.restitution, error := contact_normal_error dt c }
  let normal_row := prepare_row normal_row0 normal_options dt
    c.bodyA.linvel c.bodyB.linvel c.bodyA.angvel c.bodyB.angvel
  let tangent_relvel := relvel - Vec3.smul normal_relvel normal
  let tangent_relspd := ctx.sqrt_fn (Vec3.length_sqr tangent_relvel)
  let tangent := if ctx.epsilon < tangent_relspd then
      Vec3.smul (1 / tangent_relspd) tangent_relvel
    else Vec3.unit_x
  let friction_row0 : constraint_row :=
    { J0 := tangent, J1 := Vec3.cross rA tangent,
      J2 := -tangent, J3 := -(Vec3.cross rB tangent),
      eff_mass := 0, rhs := 0,
      lower_limit := 0, upper_limit := 0,
      impulse := c.imp1,
      inv_mA := c.bodyA.inv_m, inv_mB := c.bodyB.inv_m,
      inv_IA := c.bodyA.inv_I, inv_IB := c.bodyB.inv_I,
      idxA := c.bodyA.idx, idxB := c.bodyB.idx }
  let friction_row := prepare_row friction_row0 {} dt
    c.bodyA.linvel c.bodyB.linvel c.bodyA.angvel c.bodyB.angvel
  (normal_row, friction_row, c.cp.friction)

/-- The rows appended to the cache by `prepare_constraints<contact_constraint>`
(two per contact, normal first) together with the stored `m_friction`
coefficients, in registry iteration order. -/
def prepare_contact_constraints (ctx : math_ctx) (dt : ℚ) (cs : List contact_input) :
    List constraint_row × List ℚ :=
  (cs.flatMap (fun c =>
      let p := prepare_contact_one ctx dt c
      [p.1, p.2.1]),
   cs.map (fun c => (prepare_contact_one ctx dt c).2.2))

/-- The warm-start pass of `prepare_constraints<contact_constraint>`: each
prepared row's persistent impulse is applied to the bodies' delta velocities. -/
def warm_start_contacts (ctx : math_ctx) (dt : ℚ) (cs : List contact_input)
    (st : DeltaVel) : DeltaVel :=
  cs.foldl (fun st c =>
    let p := prepare_contact_one ctx dt c
    warm_start p.2.1 (warm_start p.1 st)) st

/-- `iterate_constraints<contact_constraint>` (contact_constraint.cpp lines
117–129): for each contact, in order, read the normal row's accumulated
impulse and set the friction row's limits to `∓|normal_impulse · m_friction|`. -/
def iterate_contact_constraints : List ℚ → List constraint_row → List constraint_row
  | μ :: μs, nr :: fr :: rest =>
    nr :: { fr with lower_limit := -|nr.impulse * μ|, upper_limit := |nr.impulse * μ| } ::
      iterate_contact_constraints μs rest
  | _, rows => rows

/-- `update_impulse<contact_constraint>` (solver.cpp lines 57–68): the pairs
`(imp.values[0], imp.values[1])` copied back from the cache rows into each
contact's persistent `constraint_impulse`. -/
def update_impulse_pairs : List constraint_row → List (ℚ × ℚ)
  | nr :: fr :: rest => (nr.impulse, fr.impulse) :: update_impulse_pairs rest
  | _ => []

/-- The contact-constraint portion of `solver::update`: prepare the rows and
warm-start, then run the fixed iteration loop with
`iterate_constraints<contact_constraint>`. -/
def contact_solver_update (ctx : math_ctx) (dt : ℚ) (n : ℕ) (cs : List contact_input)
    (st0 : DeltaVel) : DeltaVel × List constraint_row :=
  let prep := prepare_contact_constraints ctx dt cs
  let st1 := warm_start_contacts ctx dt cs st0
  solverIterations (iterate_contact_constraints prep.2) n st1 prep.1

/-- Invariant of a contact row cache: rows alternate normal/friction, and every
normal row has `lower_limit = 0`, a non-negative upper limit, and a
non-negative accumulated impulse. -/
def contact_rows_wf : List constraint_row → Prop
  | nr :: _ :: rest =>
    nr.lower_limit = 0 ∧ 0 ≤ nr.upper_limit ∧ 0 ≤ nr.impulse ∧ contact_rows_wf rest
  | _ => True

/-- Axis-aligned bounding box (`edyn::AABB`). -/
structure AABB where
  lo : Vec3
  hi : Vec3
deriving DecidableEq, Repr

/-- Modelled from the spec: `AABB::inset(v)` shrinks the box by `v` on every
side (a negative `v` expands it).  The AABB component header is not among the
sources under verification. -/
def AABB.inset (b : AABB) (v : Vec3) : AABB := ⟨b.lo + v, b.hi - v⟩

/-- Modelled from the spec: AABB intersection is overlap on every axis. -/
def intersect (a b : AABB) : Bool :=
  decide (Vec3.le a.lo b.hi) && decide (Vec3.le b.lo a.hi)

/-- An entity as seen by the broadphase: id, AABB and collision filter. -/
structure broad_entity where
  eid : ℕ
  aabb : AABB
  group : ℕ
  mask : ℕ
deriving DecidableEq, Repr

/-- `broadphase_worker::should_collide(e0, e1)`: distinct entities whose
collision filters accept each other (`(group & mask) > 0` both ways). -/
def should_collide (e0 e1 : broad_entity) : Bool :=
  decide (e0.eid ≠ e1.eid) &&
  decide (0 < Nat.land e0.group e1.mask) &&
  decide (0 < Nat.land e1.group e0.mask)

/-- Membership in the contact manifold map, which is keyed on unordered entity
pairs (`m_manifold_map.contains(first, second)`). -/
def manifold_contains (ms : List (ℕ × ℕ)) (a b : ℕ) : Bool :=
  ms.any (fun p => (p.1 == a && p.2 == b) || (p.1 == b && p.2 == a))

/-- The broadphase worker's state relevant to manifold creation:
the `AABB, procedural_tag` view in iteration order, the two trees' query
results (`m_tree` and `m_np_tree`, as functions of the query AABB), the AABB
offset and the existing manifold pairs. -/
structure broadphase_model where
  proc_entities : List broad_entity
  queryT : AABB → List broad_entity
  queryN : AABB → List broad_entity
  aabb_offset : Vec3
  manifolds : List (ℕ × ℕ)

/-- `broadphase_worker::collide_tree`: for every candidate reported by the
tree query, create a manifold when the filters allow, none exists yet, and the
offset AABB intersects the candidate's AABB. -/
def collide_tree (e : broad_entity) (offset_aabb : AABB) (cands : List broad_entity)
    (ms : List (ℕ × ℕ)) : List (ℕ × ℕ) :=
  cands.foldl (fun ms c =>
    if should_collide e c && !manifold_contains ms e.eid c.eid &&
       intersect offset_aabb c.aabb then
      ms ++ [(e.eid, c.eid)]
    else ms) ms

/-- `broadphase_worker::update` (synchronous path, after `common_update`):
query both trees for each procedural entity's offset AABB and create the new
manifolds; returns the resulting manifold list. -/
def broadphase_update (m : broadphase_model) : List (ℕ × ℕ) :=
  m.proc_entities.foldl (fun ms e =>
    let offset_aabb := e.aabb.inset m.aabb_offset
    collide_tree e offset_aabb (m.queryT offset_aabb ++ m.queryN offset_aabb) ms)
    m.manifolds

/-- `broadphase_worker::collide_tree_async`: the intersection pairs written
into this entity's per-task result vector (no manifold-map check here). -/
def collide_tree_async (e : broad_entity) (offset_aabb : AABB)
    (cands : List broad_entity) : List (ℕ × ℕ) :=
  (cands.filter (fun c => should_collide e c && intersect offset_aabb c.aabb)).map
    (fun c => (e.eid, c.eid))

/-- `broadphase_worker::update_async` (after `common_update`): the per-task
pair vectors `m_pair_results`, one per procedural entity in view order. -/
def broadphase_update_async (m : broadphase_model) : List (List (ℕ × ℕ)) :=
  m.proc_entities.map (fun e =>
    let offset_aabb := e.aabb.inset m.aabb_offset
    collide_tree_async e offset_aabb (m.queryT offset_aabb ++ m.queryN offset_aabb))

/-- One merge step of `broadphase_worker::finish_async_update`: create the
manifold unless one already exists for the pair. -/
def merge_pair (ms : List (ℕ × ℕ)) (p : ℕ × ℕ) : List (ℕ × ℕ) :=
  if manifold_contains ms p.1 p.2 then ms else ms ++ [p]

/-- `broadphase_worker::finish_async_update`: merge the per-task pair vectors
serially, in task order. -/
def finish_async_update (pair_results : List (List (ℕ × ℕ))) (ms : List (ℕ × ℕ)) :
    List (ℕ × ℕ) :=
  pair_results.foldl (fun ms pairs => pairs.foldl merge_pair ms) ms

/-- One record of the `contact_manifold` view: manifold entity, its two bodies
and its separation threshold. -/
structure manifold_rec where
  ment : ℕ
  body0 : ℕ
  body1 : ℕ
  separation_threshold : ℚ
deriving DecidableEq, Repr

/-- The separation test of `destroy_separated_manifolds`: body 0's AABB inset
by `vector3_one * −separation_threshold` does not intersect body 1's AABB. -/
def manifold_separated (aabb_of : ℕ → AABB) (m : manifold_rec) : Bool :=
  let separation_offset := Vec3.smul (-m.separation_threshold) Vec3.one
  !(intersect ((aabb_of m.body0).inset separation_offset) (aabb_of m.body1))

/-- `destroy_separated_manifolds` (broadphase_worker.cpp lines 63–77): destroy
every manifold whose bodies' AABBs are no longer intersecting. -/
def destroy_separated_manifolds (aabb_of : ℕ → AABB) :
    List manifold_rec → List manifold_rec
  | [] => []
  | m :: rest =>
    if manifold_separated aabb_of m then destroy_separated_manifolds aabb_of rest
    else m :: destroy_separated_manifolds aabb_of rest

/-- `max_lagging_steps` from `island_worker::finish_step` (= 10). -/
def max_lagging_steps : ℤ := 10

/-- The `island_timestamp` update of `island_worker::finish_step`
(island_worker.cpp lines 382–399): with `dt = m_step_start_time − isle_time`
and `num_steps = ⌊dt / fixed_dt⌋`, either advance by `fixed_dt`, or, when more
than `max_lagging_steps` steps behind, clamp to
`step_start − (remainder + max_lagging_steps·fixed_dt)`. -/
def finish_step_timestamp (fixed_dt step_start isle_time : ℚ) : ℚ :=
  let dt := step_start - isle_time
  let num_steps : ℤ := ⌊dt / fixed_dt⌋
  if num_steps > max_lagging_steps then
    let remainder := dt - (num_steps : ℚ) * fixed_dt
    step_start - (remainder + (max_lagging_steps : ℚ) * fixed_dt)
  else
    isle_time + fixed_dt

/-- An entity of the island worker's registry as seen by the sleep logic:
procedural tag, `sleeping_disabled_tag`, optional velocity components and
`sleeping_tag`. -/
structure sleep_entity where
  procedural : Bool
  sleeping_disabled : Bool
  linvel : Option Vec3
  angvel : Option Vec3
  sleeping : Bool
deriving DecidableEq, Repr

/-- The loop body test of `island_worker::could_go_to_sleep`: the entity moves
faster than the sleep thresholds (`length_sqr(v) > v_sleep²` or
`length_sqr(w) > w_sleep²`).  Entities missing a velocity component are not in
the `linvel, angvel, procedural_tag` view. -/
def exceeds_sleep_threshold (v_sleep w_sleep : ℚ) (e : sleep_entity) : Bool :=
  match e.linvel, e.angvel with
  | some v, some w =>
    decide (v_sleep * v_sleep < Vec3.length_sqr v) ||
    decide (w_sleep * w_sleep < Vec3.length_sqr w)
  | _, _ => false

/-- `island_worker::could_go_to_sleep` (island_worker.cpp lines 515–535):
false when any entity has a `sleeping_disabled_tag` or any procedural entity
moves faster than the sleep thresholds. -/
def could_go_to_sleep (v_sleep w_sleep : ℚ) (es : List sleep_entity) : Bool :=
  if es.any (fun e => e.sleeping_disabled) then false
  else !(es.any (fun e => e.procedural && exceeds_sleep_threshold v_sleep w_sleep e))

/-- The island worker's registry as seen by the sleep logic: the island
entity's `sleeping_tag` plus all other entities. -/
structure island_registry where
  island_sleeping : Bool
  entities : List sleep_entity
deriving DecidableEq, Repr

/-- `island_worker::go_to_sleep` (island_worker.cpp lines 537–556): tag the
island entity, zero every procedural entity's present velocities and tag every
procedural entity with `sleeping_tag`. -/
def go_to_sleep (reg : island_registry) : island_registry :=
  { island_sleeping := true,
    entities := reg.entities.map (fun e =>
      if e.procedural then
        { e with linvel := e.linvel.map (fun _ => Vec3.zero),
                 angvel := e.angvel.map (fun _ => Vec3.zero),
                 sleeping := true }
      else e) }

/-- `island_worker::maybe_go_to_sleep`: start or check the sleep timer and go
to sleep once `could_go_to_sleep` has held for more than
`island_time_to_sleep` of simulation time; returns the registry and the new
`m_sleep_timestamp`. -/
def maybe_go_to_sleep (v_sleep w_sleep time_to_sleep isle_time : ℚ)
    (sleep_timestamp : Option ℚ) (reg : island_registry) :
    island_registry × Option ℚ :=
  if could_go_to_sleep v_sleep w_sleep reg.entities then
    match sleep_timestamp with
    | none => (reg, some isle_time)
    | some ts =>
      if time_to_sleep < isle_time - ts then (go_to_sleep reg, none)
      else (reg, some ts)
  else (reg, none)

/-- The spec's sleep predicate as claimed (strict comparisons): no entity has
a `sleeping_disabled_tag` and every procedural body in the velocity view
satisfies `|v|² < v_sleep²` and `|ω|² < ω_sleep²`. -/
def sleep_pred_strict (v_sleep w_sleep : ℚ) (es : List sleep_entity) : Prop :=
  (∀ e ∈ es, e.sleeping_disabled = false) ∧
  (∀ e ∈ es, e.procedural = true → ∀ v w : Vec3, e.linvel = some v → e.angvel = some w →
    Vec3.length_sqr v < v_sleep * v_sleep ∧ Vec3.length_sqr w < w_sleep * w_sleep)

/-- The sleep predicate actually decided by the code (non-strict comparisons):
no entity has a `sleeping_disabled_tag` and every procedural body in the
velocity view satisfies `|v|² ≤ v_sleep²` and `|ω|² ≤ ω_sleep²`. -/
def sleep_pred (v_sleep w_sleep : ℚ) (es : List sleep_entity) : Prop :=
  (∀ e ∈ es, e.sleeping_disabled = false) ∧
  (∀ e ∈ es, e.procedural = true → ∀ v w : Vec3, e.linvel = some v → e.angvel = some w →
    Vec3.length_sqr v ≤ v_sleep * v_sleep ∧ Vec3.length_sqr w ≤ w_sleep * w_sleep)

/-- The rigid body kinds (`edyn::rigidbody_kind`). -/
inductive rigidbody_kind where
  | rb_dynamic
  | rb_kinematic
  | rb_static
deriving DecidableEq, Repr

/-- The fields of `edyn::rigidbody_def` used by `make_rigidbody`. -/
structure rigidbody_def where
  kind : rigidbody_kind
  pos : Vec3
  orn : Quat
  mass : ℚ
  inertia : Vec3
  linvel : Vec3
  angvel : Vec3
  gravity : Vec3
deriving DecidableEq, Repr

/-- The mass/inertia/velocity components `make_rigidbody` assigns to the new
entity. -/
structure rigidbody_components where
  mass : ℚ
  mass_inv : ℚ
  inertia : Vec3
  inertia_inv : Vec3
  inertia_world_inv : Mat3
  linvel : Vec3
  angvel : Vec3
  has_linacc : Bool
  linacc : Vec3
deriving DecidableEq, Repr

/-- Modelled from the spec: componentwise reciprocal, the standard 3D-math
meaning of `1 / def.inertia` for a diagonal inertia vector. -/
def Vec3.recip (a : Vec3) : Vec3 := ⟨1 / a.x, 1 / a.y, 1 / a.z⟩

/-- Modelled from the spec: `diagonal(v)`, the diagonal 3×3 matrix, standard
3D math. -/
def diagonal (v : Vec3) : Mat3 := ⟨⟨v.x, 0, 0⟩, ⟨0, v.y, 0⟩, ⟨0, 0, v.z⟩⟩

/-- `make_rigidbody` (rigidbody.cpp lines 24–85), restricted to the
mass/inertia/velocity/acceleration components.  `scalar_max` stands for
`EDYN_SCALAR_MAX`; the `EDYN_ASSERT`s of the dynamic branch are modelled as
returning `none` when violated. -/
def make_rigidbody (scalar_max : ℚ) (d : rigidbody_def) : Option rigidbody_components :=
  if d.kind = rigidbody_kind.rb_dynamic ∧
     ¬(0 < d.mass ∧ 0 < d.inertia.x ∧ 0 < d.inertia.y ∧ 0 < d.inertia.z) then
    none
  else
    some
      { mass := if d.kind = rigidbody_kind.rb_dynamic then d.mass else scalar_max,
        mass_inv := if d.kind = rigidbody_kind.rb_dynamic then 1 / d.mass else 0,
        inertia := if d.kind = rigidbody_kind.rb_dynamic then d.inertia
          else ⟨scalar_max, scalar_max, scalar_max⟩,
        inertia_inv := if d.kind = rigidbody_kind.rb_dynamic then Vec3.recip d.inertia
          else Vec3.zero,
        inertia_world_inv := if d.kind = rigidbody_kind.rb_dynamic then
            diagonal (Vec3.recip d.inertia)
          else Mat3.zero,
        linvel := if d.kind = rigidbody_kind.rb_static then Vec3.zero else d.linvel,
        angvel := if d.kind = rigidbody_kind.rb_static then Vec3.zero else d.angvel,
        has_linacc :=
          decide (d.kind = rigidbody_kind.rb_dynamic ∧ d.gravity ≠ Vec3.zero),
        linacc := d.gravity }

/-- A concrete numeric context used by witnesses. -/
def sample_ctx : math_ctx :=
  { sqrt_fn := fun q => q, epsilon := 1 / 1000000, large_scalar := 10 ^ 20 }

/-- A concrete body state used by witnesses. -/
def sample_bodyA : body_state :=
  { pos := ⟨0, 1, 0⟩, orn := ⟨0, 0, 0, 1⟩, linvel := ⟨0, -1, 0⟩, angvel := Vec3.zero,
    inv_m := 1, inv_I := Mat3.zero, idx := 0 }

/-- A concrete body state used by witnesses. -/
def sample_bodyB : body_state :=
  { pos := ⟨0, 0, 0⟩, orn := ⟨0, 0, 0, 1⟩, linvel := Vec3.zero, angvel := Vec3.zero,
    inv_m := 0, inv_I := Mat3.zero, idx := 1 }

/-- A concrete contact constraint input used by witnesses. -/
def sample_contact : contact_input :=
  { bodyA := sample_bodyA, bodyB := sample_bodyB,
    stiffness := 10 ^ 30, damping := 0,
    cp := { pivotA := ⟨0, -1, 0⟩, pivotB := ⟨0, 0, 0⟩, normalB := ⟨0, 1, 0⟩,
            distance := 0, restitution := 0, friction := 1 / 2, lifetime := 0 },
    imp0 := 0, imp1 := 0 }

/- ------------------------------------------------------------------ -/
/- Theorems.                                                           -/
/- ------------------------------------------------------------------ -/

/-- `solve` leaves everything but the accumulated impulse unchanged. -/
theorem solve_preserves_limits (st : DeltaVel) (row : constraint_row) :
    (solve st row).2.lower_limit = row.lower_limit ∧
    (solve st row).2.upper_limit = row.upper_limit := by
  unfold solve
  dsimp only
  split
  · exact ⟨rfl, rfl⟩
  · split
    · exact ⟨rfl, rfl⟩
    · exact ⟨rfl, rfl⟩

/-- If the row's limits are ordered, the accumulated impulse after `solve`
lies within them. -/
theorem solve_impulse_mem (st : DeltaVel) (row : constraint_row)
    (h : row.lower_limit ≤ row.upper_limit) :
    row.lower_limit ≤ (solve st row).2.impulse ∧
    (solve st row).2.impulse ≤ row.upper_limit := by
  unfold solve
  dsimp only
  split
  · exact ⟨le_refl _, h⟩
  · rename_i h2
    split
    · exact ⟨h, le_refl _⟩
    · rename_i h3
      exact ⟨le_of_not_lt h2, le_of_not_gt h3⟩

/-- After the row loop of one iteration, every row whose input limits were
ordered has its accumulated impulse within its (unchanged) limits. -/
theorem solveRows_impulse_mem (st : DeltaVel) (rows : List constraint_row)
    (h : ∀ r ∈ rows, r.lower_limit ≤ r.upper_limit) :
    ∀ r ∈ (solveRows st rows).2,
      r.lower_limit ≤ r.impulse ∧ r.impulse ≤ r.upper_limit := by
  induction rows generalizing st with
  | nil => intro r hr; simp [solveRows] at hr
  | cons a as ih =>
    intro r hr
    simp only [solveRows] at hr
    rcases List.mem_cons.mp hr with h1 | h2
    · subst h1
      have ha := h a (List.mem_cons_self a as)
      have hm := solve_impulse_mem st a ha
      have hl := solve_preserves_limits st a
      exact ⟨hl.1 ▸ hm.1, hl.2 ▸ hm.2⟩
    · exact ih _ (fun r hr => h r (List.mem_cons_of_mem a hr)) r h2

/-- C1: after `solver::update` completes its fixed iteration passes (at least
one), every constraint row's accumulated impulse lies within
`[lower_limit, upper_limit]`, provided each pass's `iterate_constraints` step
leaves every row with ordered limits (each per-row solve clamps the accumulated
impulse to the row's limits before applying the velocity change). -/
theorem solver_update_impulse_within_limits
    (iter : List constraint_row → List constraint_row) (n : ℕ) (st : DeltaVel)
    (rows : List constraint_row) (hn : 0 < n)
    (hiter : ∀ rows', ∀ r ∈ iter rows', r.lower_limit ≤ r.upper_limit) :
    ∀ r ∈ (solverIterations iter n st rows).2,
      r.lower_limit ≤ r.impulse ∧ r.impulse ≤ r.upper_limit := by
  induction n generalizing st rows with
  | zero => exact absurd hn (by simp)
  | succ m ih =>
    cases m with
    | zero =>
      intro r hr
      simp only [solverIterations] at hr
      exact solveRows_impulse_mem st (iter rows) (hiter rows) r hr
    | succ k =>
      intro r hr
      simp only [solverIterations] at hr
      exact ih _ _ (Nat.succ_pos k) r hr

/-- Witness for C1 at a concrete iterate function, row and state. -/
theorem solver_update_impulse_within_limits_witness :
    List.Forall (fun r => r.lower_limit ≤ r.impulse ∧ r.impulse ≤ r.upper_limit)
      (solverIterations
        (fun rows => rows.map (fun r => { r with lower_limit := 0, upper_limit := 1 }))
        1 (fun _ => (Vec3.zero, Vec3.zero))
        [{ J0 := Vec3.unit_x, J1 := Vec3.zero, J2 := Vec3.zero, J3 := Vec3.zero,
           eff_mass := 1, rhs := 5, lower_limit := 0, upper_limit := 1, impulse := 0,
           inv_mA := 1, inv_mB := 1, inv_IA := Mat3.zero, inv_IB := Mat3.zero,
           idxA := 0, idxB := 1 }]).2 :=
  List.forall_iff_forall_mem.mpr
    (solver_update_impulse_within_limits
      (fun rows => rows.map (fun r => { r with lower_limit := 0, upper_limit := 1 }))
      1 (fun _ => (Vec3.zero, Vec3.zero)) _ (by decide)
      (by
        intro rows' r hr
        simp only [List.mem_map] at hr
        obtain ⟨s, _, hs⟩ := hr
        rw [← hs]
        norm_num))

/-- C2: the error term of the contact normal row computed by
`prepare_constraints<contact_constraint>` equals the spec's description: if
`penetration > 0` and the velocity required to close the gap in `dt` exceeds
the bounce velocity `−restitution·v_n`, the error is `max(penetration/dt, 0)`;
otherwise it is `min(penetration/dt, 0)`, with
`penetration = dot(posA + rA − posB − rB, normal)`. -/
theorem contact_normal_error_matches_spec (dt : ℚ) (c : contact_input) :
    contact_normal_error dt c = contact_normal_error_spec dt c := rfl

/-- C5: `iterate_constraints<contact_constraint>` sets each contact's
friction-row limits symmetrically from the current normal-row impulse,
`lower = −|normal_impulse·μ|` and `upper = +|normal_impulse·μ|`, with `μ` the
contact point's friction stored into `m_friction` during preparation, and the
friction limits prepared before the first iteration are zero. -/
theorem contact_friction_limits_from_normal_impulse
    (ctx : math_ctx) (dt : ℚ) (c : contact_input) (cs : List contact_input)
    (μ : ℚ) (μs : List ℚ) (nr fr : constraint_row) (rest : List constraint_row) :
    ((prepare_contact_one ctx dt c).2.1.lower_limit = 0 ∧
     (prepare_contact_one ctx dt c).2.1.upper_limit = 0) ∧
    ((prepare_contact_one ctx dt c).2.2 = c.cp.friction ∧
     (prepare_contact_constraints ctx dt cs).2 = cs.map (fun c => c.cp.friction)) ∧
    iterate_contact_constraints (μ :: μs) (nr :: fr :: rest) =
      nr :: { fr with lower_limit := -|nr.impulse * μ|,
                      upper_limit := |nr.impulse * μ| } ::
        iterate_contact_constraints μs rest :=
  ⟨⟨rfl, rfl⟩, ⟨rfl, rfl⟩, rfl⟩

/-- The normal row produced by contact preparation has `lower_limit = 0`, a
non-negative upper limit (for non-negative `dt` and `large_scalar`), and its
impulse warm-started from the persistent `imp.values[0]`. -/
theorem prepare_contact_one_normal_wf (ctx : math_ctx) (dt : ℚ) (c : contact_input)
    (hdt : 0 ≤ dt) (hls : 0 ≤ ctx.large_scalar) :
    (prepare_contact_one ctx dt c).1.lower_limit = 0 ∧
    0 ≤ (prepare_contact_one ctx dt c).1.upper_limit ∧
    (prepare_contact_one ctx dt c).1.impulse = c.imp0 := by
  refine ⟨rfl, ?_, rfl⟩
  unfold prepare_contact_one prepare_row
  dsimp only
  split
  · exact mul_nonneg (abs_nonneg _) hdt
  · exact hls

/-- The row cache built from a list of contacts whose persistent impulses start
at zero satisfies the contact row invariant. -/
theorem prepare_contact_rows_wf (ctx : math_ctx) (dt : ℚ) (cs : List contact_input)
    (hdt : 0 ≤ dt) (hls : 0 ≤ ctx.large_scalar) (h0 : ∀ c ∈ cs, c.imp0 = 0) :
    contact_rows_wf (prepare_contact_constraints ctx dt cs).1 := by
  induction cs with
  | nil => simp [prepare_contact_constraints, contact_rows_wf]
  | cons c cs ih =>
    have hw := prepare_contact_one_normal_wf ctx dt c hdt hls
    have hc0 := h0 c (List.mem_cons_self c cs)
    have hcons : (prepare_contact_constraints ctx dt (c :: cs)).1 =
        (prepare_contact_one ctx dt c).1 :: (prepare_contact_one ctx dt c).2.1 ::
        (prepare_contact_constraints ctx dt cs).1 := by
      simp [prepare_contact_constraints]
    rw [hcons]
    simp only [contact_rows_wf]
    exact ⟨hw.1, hw.2.1, by rw [hw.2.2, hc0],
      ih (fun c hc => h0 c (List.mem_cons_of_mem _ hc))⟩

/-- `iterate_constraints<contact_constraint>` preserves the contact row
invariant (it never touches a normal row's limits or impulse). -/
theorem iterate_contact_preserves_wf : ∀ (μs : List ℚ) (rows : List constraint_row),
    contact_rows_wf rows → contact_rows_wf (iterate_contact_constraints μs rows)
  | [], rows, h => by simpa [iterate_contact_constraints] using h
  | _ :: _, [], h => by simpa [iterate_contact_constraints] using h
  | _ :: _, [_], h => by simpa [iterate_contact_constraints] using h
  | μ :: μs, nr :: fr :: rest, h => by
    simp only [contact_rows_wf] at h
    simp only [iterate_contact_constraints, contact_rows_wf]
    exact ⟨h.1, h.2.1, h.2.2.1, iterate_contact_preserves_wf μs rest h.2.2.2⟩

/-- The row loop of one solver iteration preserves the contact row invariant. -/
theorem solveRows_preserves_wf : ∀ (rows : List constraint_row) (st : DeltaVel),
    contact_rows_wf rows → contact_rows_wf (solveRows st rows).2
  | [], st, _ => by simp [solveRows, contact_rows_wf]
  | [_], st, _ => by simp [solveRows, contact_rows_wf]
  | nr :: fr :: rest, st, h => by
    simp only [contact_rows_wf] at h
    obtain ⟨h1, h2, h3, h4⟩ := h
    simp only [solveRows, contact_rows_wf]
    have hle : nr.lower_limit ≤ nr.upper_limit := by rw [h1]; exact h2
    refine ⟨(solve_preserves_limits st nr).1.trans h1, ?_, ?_, ?_⟩
    · rw [(solve_preserves_limits st nr).2]; exact h2
    · have hm := (solve_impulse_mem st nr hle).1
      rw [h1] at hm
      exact hm
    · exact solveRows_preserves_wf rest _ h4

/-- The whole fixed-iteration loop with the contact iterate step preserves the
contact row invariant. -/
theorem contact_iterations_preserve_wf (μs : List ℚ) (n : ℕ) :
    ∀ (st : DeltaVel) (rows : List constraint_row), contact_rows_wf rows →
      contact_rows_wf (solverIterations (iterate_contact_constraints μs) n st rows).2 := by
  induction n with
  | zero => intro st rows h; simpa [solverIterations] using h
  | succ m ih =>
    intro st rows h
    simp only [solverIterations]
    exact ih _ _ (solveRows_preserves_wf _ _ (iterate_contact_preserves_wf μs rows h))

/-- Under the contact row invariant, every impulse pair copied back to the
persistent `constraint_impulse` has a non-negative normal component. -/
theorem update_impulse_pairs_nonneg : ∀ (rows : List constraint_row),
    contact_rows_wf rows → ∀ p ∈ update_impulse_pairs rows, 0 ≤ p.1
  | [], _, p, hp => by simp [update_impulse_pairs] at hp
  | [_], _, p, hp => by simp [update_impulse_pairs] at hp
  | nr :: fr :: rest, h, p, hp => by
    simp only [contact_rows_wf] at h
    simp only [update_impulse_pairs, List.mem_cons] at hp
    rcases hp with hp | hp
    · rw [hp]
      exact h.2.2.1
    · exact update_impulse_pairs_nonneg rest h.2.2.2 p hp

/-- C4: starting from zero persistent impulses, after any number of solver
iterations the contact row cache satisfies the invariant (every normal row has
`lower_limit = 0`, non-negative upper limit and non-negative accumulated
impulse), and every `imp.values[0]` copied back by `update_impulse` is
non-negative. -/
theorem contact_normal_impulse_nonneg (ctx : math_ctx) (dt : ℚ) (n : ℕ)
    (cs : List contact_input) (st0 : DeltaVel)
    (hdt : 0 ≤ dt) (hls : 0 ≤ ctx.large_scalar) (h0 : ∀ c ∈ cs, c.imp0 = 0) :
    contact_rows_wf (contact_solver_update ctx dt n cs st0).2 ∧
    ∀ p ∈ update_impulse_pairs (contact_solver_update ctx dt n cs st0).2, 0 ≤ p.1 := by
  have hwf := prepare_contact_rows_wf ctx dt cs hdt hls h0
  have h1 := contact_iterations_preserve_wf (prepare_contact_constraints ctx dt cs).2 n
      (warm_start_contacts ctx dt cs st0) _ hwf
  exact ⟨h1, update_impulse_pairs_nonneg _ h1⟩

/-- Witness for C4 at a concrete contact and ten iterations. -/
theorem contact_normal_impulse_nonneg_witness :
    contact_rows_wf (contact_solver_update sample_ctx (1 / 60) 10 [sample_contact]
      (fun _ => (Vec3.zero, Vec3.zero))).2 ∧
    List.Forall (fun p => 0 ≤ p.1)
      (update_impulse_pairs (contact_solver_update sample_ctx (1 / 60) 10
        [sample_contact] (fun _ => (Vec3.zero, Vec3.zero))).2) :=
  ⟨(contact_normal_impulse_nonneg sample_ctx (1 / 60) 10 [sample_contact]
      (fun _ => (Vec3.zero, Vec3.zero)) (by norm_num)
      (by norm_num [sample_ctx]) (by decide)).1,
   List.forall_iff_forall_mem.mpr
    (contact_normal_impulse_nonneg sample_ctx (1 / 60) 10 [sample_contact]
      (fun _ => (Vec3.zero, Vec3.zero)) (by norm_num)
      (by norm_num [sample_ctx]) (by decide)).2⟩

/-- C10: the value returned by `solve` equals the row's accumulated impulse
after the call minus its accumulated impulse before the call, in all three
branches (clamped below, clamped above, unclamped). -/
theorem solve_returns_impulse_delta (st : DeltaVel) (row : constraint_row) :
    (solve st row).1 = (solve st row).2.impulse - row.impulse := by
  unfold solve
  dsimp only
  split
  · ring
  · split
    · ring
    · ring

/-- Merging one entity's async pair vector serially equals the synchronous
`collide_tree` pass over the same candidates. -/
theorem merge_eq_collide (e : broad_entity) (off : AABB) :
    ∀ (cands : List broad_entity) (ms : List (ℕ × ℕ)),
      (collide_tree_async e off cands).foldl merge_pair ms = collide_tree e off cands ms := by
  intro cands
  induction cands with
  | nil => intro ms; rfl
  | cons c cs ih =>
    intro ms
    have hsync : collide_tree e off (c :: cs) ms =
        collide_tree e off cs
          (if should_collide e c && !manifold_contains ms e.eid c.eid &&
              intersect off c.aabb then ms ++ [(e.eid, c.eid)] else ms) := by
      simp only [collide_tree, List.foldl_cons]
    cases hS : should_collide e c with
    | false =>
      have hasync : collide_tree_async e off (c :: cs) = collide_tree_async e off cs := by
        simp [collide_tree_async, hS]
      rw [hasync, ih, hsync, hS]
      simp
    | true =>
      cases hI : intersect off c.aabb with
      | false =>
        have hasync : collide_tree_async e off (c :: cs) = collide_tree_async e off cs := by
          simp [collide_tree_async, hS, hI]
        rw [hasync, ih, hsync, hS, hI]
        simp
      | true =>
        have hasync : collide_tree_async e off (c :: cs) =
            (e.eid, c.eid) :: collide_tree_async e off cs := by
          simp [collide_tree_async, hS, hI]
        rw [hasync, List.foldl_cons, ih, hsync, hS, hI]
        congr 1
        rw [merge_pair]
        cases hC : manifold_contains ms e.eid c.eid <;> simp [hC]

/-- C3: the asynchronous broadphase path — collecting intersection pairs into
per-task vectors (`update_async`) and merging them serially
(`finish_async_update`) — creates exactly the same manifolds as the
synchronous `update` path, for every broadphase state. -/
theorem broadphase_async_eq_sync (m : broadphase_model) :
    finish_async_update (broadphase_update_async m) m.manifolds = broadphase_update m := by
  unfold finish_async_update broadphase_update_async broadphase_update
  generalize m.manifolds = ms
  induction m.proc_entities generalizing ms with
  | nil => rfl
  | cons e es ih =>
    simp only [List.map_cons, List.foldl_cons]
    rw [merge_eq_collide]
    exact ih _

/-- C6: `destroy_separated_manifolds` keeps exactly the manifolds whose
bodies' AABBs (body 0's inset by `−separation_threshold`) still intersect:
the survivors are the filter of the original list by the intersection test,
every survivor's inset AABBs intersect, manifolds of still-intersecting pairs
are untouched (they remain in the list), and every separated manifold is
destroyed. -/
theorem destroy_separated_manifolds_exact (aabb_of : ℕ → AABB)
    (ms : List manifold_rec) :
    destroy_separated_manifolds aabb_of ms =
      ms.filter (fun m => !manifold_separated aabb_of m) ∧
    (∀ m ∈ destroy_separated_manifolds aabb_of ms,
      intersect ((aabb_of m.body0).inset (Vec3.smul (-m.separation_threshold) Vec3.one))
        (aabb_of m.body1) = true) ∧
    (∀ m ∈ ms, manifold_separated aabb_of m = false →
      m ∈ destroy_separated_manifolds aabb_of ms) ∧
    (∀ m ∈ ms, manifold_separated aabb_of m = true →
      m ∉ destroy_separated_manifolds aabb_of ms) := by
  have hfilter : destroy_separated_manifolds aabb_of ms =
      ms.filter (fun m => !manifold_separated aabb_of m) := by
    induction ms with
    | nil => rfl
    | cons m rest ih =>
      by_cases h : manifold_separated aabb_of m = true
      · simp [destroy_separated_manifolds, List.filter_cons, h, ih]
      · simp only [Bool.not_eq_true] at h
        simp [destroy_separated_manifolds, List.filter_cons, h, ih]
  refine ⟨hfilter, ?_, ?_, ?_⟩
  · intro m hm
    rw [hfilter, List.mem_filter] at hm
    have := hm.2
    simp only [manifold_separated, Bool.not_eq_true', Bool.not_eq_eq_eq_not,
      Bool.not_true, Bool.not_not] at this ⊢
    simpa using this
  · intro m hm hsep
    rw [hfilter, List.mem_filter]
    exact ⟨hm, by simp [hsep]⟩
  · intro m _ hsep hmem
    rw [hfilter, List.mem_filter] at hmem
    simp [hsep] at hmem

/-- C7: when at most `max_lagging_steps` whole steps have elapsed since the
previous timestamp, `finish_step` advances `island_timestamp` by exactly
`fixed_dt`; otherwise the new timestamp leaves a lag of exactly the sub-step
remainder plus `max_lagging_steps·fixed_dt` behind the step start time, hence
less than `(max_lagging_steps + 1)·fixed_dt`. -/
theorem finish_step_timestamp_lag (fixed_dt step_start isle_time : ℚ)
    (hf : 0 < fixed_dt) :
    (⌊(step_start - isle_time) / fixed_dt⌋ ≤ max_lagging_steps →
      finish_step_timestamp fixed_dt step_start isle_time = isle_time + fixed_dt) ∧
    (max_lagging_steps < ⌊(step_start - isle_time) / fixed_dt⌋ →
      step_start - finish_step_timestamp fixed_dt step_start isle_time =
        ((step_start - isle_time) -
          (⌊(step_start - isle_time) / fixed_dt⌋ : ℚ) * fixed_dt) +
          (max_lagging_steps : ℚ) * fixed_dt ∧
      step_start - finish_step_timestamp fixed_dt step_start isle_time <
        ((max_lagging_steps : ℚ) + 1) * fixed_dt) := by
  constructor
  · intro h
    simp only [finish_step_timestamp]
    rw [if_neg (not_lt.mpr h)]
  · intro h
    simp only [finish_step_timestamp]
    rw [if_pos h]
    constructor
    · ring
    · have h1 := Int.lt_floor_add_one ((step_start - isle_time) / fixed_dt)
      have h2 : step_start - isle_time <
          ((⌊(step_start - isle_time) / fixed_dt⌋ : ℚ) + 1) * fixed_dt :=
        (div_lt_iff₀ hf).mp h1
      nlinarith [h2]

/-- Witness for C7 in the lagging branch, at `fixed_dt = 1`,
`step_start = 20`, `isle_time = 0` (twenty whole steps behind). -/
theorem finish_step_timestamp_lag_witness :
    max_lagging_steps < ⌊((20 : ℚ) - 0) / 1⌋ ∧
    ((20 : ℚ) - finish_step_timestamp 1 20 0 =
        (((20 : ℚ) - 0) - (⌊((20 : ℚ) - 0) / 1⌋ : ℚ) * 1) +
          (max_lagging_steps : ℚ) * 1 ∧
      (20 : ℚ) - finish_step_timestamp 1 20 0 <
        ((max_lagging_steps : ℚ) + 1) * 1) :=
  have hfloor : max_lagging_steps < ⌊((20 : ℚ) - 0) / 1⌋ := by
    norm_num [max_lagging_steps]
  ⟨hfloor, (finish_step_timestamp_lag 1 20 0 (by decide)).2 hfloor⟩

/-- `exceeds_sleep_threshold` is false exactly when the entity's velocities,
when present, are within the (non-strict) sleep thresholds. -/
theorem exceeds_sleep_threshold_false_iff (vs ws : ℚ) (e : sleep_entity) :
    exceeds_sleep_threshold vs ws e = false ↔
      (∀ v w : Vec3, e.linvel = some v → e.angvel = some w →
        Vec3.length_sqr v ≤ vs * vs ∧ Vec3.length_sqr w ≤ ws * ws) := by
  unfold exceeds_sleep_threshold
  rcases hv : e.linvel with _ | v0
  · simp [hv]
  · rcases hw : e.angvel with _ | w0
    · simp [hw]
    · simp only [Bool.or_eq_false_iff, decide_eq_false_iff_not, not_lt]
      constructor
      · rintro ⟨h1, h2⟩ v w hv' hw'
        obtain rfl : v0 = v := Option.some.inj hv'
        obtain rfl : w0 = w := Option.some.inj hw'
        exact ⟨h1, h2⟩
      · intro h
        exact ⟨(h v0 w0 rfl rfl).1, (h v0 w0 rfl rfl).2⟩

/-- `could_go_to_sleep` decides the (non-strict) sleep predicate. -/
theorem could_go_to_sleep_iff (vs ws : ℚ) (es : List sleep_entity) :
    could_go_to_sleep vs ws es = true ↔ sleep_pred vs ws es := by
  constructor
  · intro h
    unfold could_go_to_sleep at h
    by_cases hd : es.any (fun e => e.sleeping_disabled) = true
    · rw [if_pos hd] at h
      exact absurd h (by simp)
    · rw [if_neg hd] at h
      have hd' : es.any (fun e => e.sleeping_disabled) = false := by
        cases hb : es.any (fun e => e.sleeping_disabled)
        · rfl
        · exact absurd hb hd
      have h2 : es.any (fun e => e.procedural && exceeds_sleep_threshold vs ws e) = false := by
        cases hb : es.any (fun e => e.procedural && exceeds_sleep_threshold vs ws e)
        · rfl
        · rw [hb] at h
          exact absurd h (by simp)
      constructor
      · intro e he
        cases hb : e.sleeping_disabled
        · rfl
        · have : es.any (fun e => e.sleeping_disabled) = true :=
            List.any_eq_true.mpr ⟨e, he, hb⟩
          rw [this] at hd'
          exact absurd hd' (by simp)
      · intro e he hp v w hv hw
        have hex : exceeds_sleep_threshold vs ws e = false := by
          cases hb : exceeds_sleep_threshold vs ws e
          · rfl
          · have : es.any (fun e => e.procedural && exceeds_sleep_threshold vs ws e) = true :=
              List.any_eq_true.mpr ⟨e, he, by rw [hp, hb]; rfl⟩
            rw [this] at h2
            exact absurd h2 (by simp)
        exact (exceeds_sleep_threshold_false_iff vs ws e).mp hex v w hv hw
  · rintro ⟨hA, hB⟩
    unfold could_go_to_sleep
    have hd : es.any (fun e => e.sleeping_disabled) = false := by
      cases hb : es.any (fun e => e.sleeping_disabled)
      · rfl
      · obtain ⟨e, he, hde⟩ := List.any_eq_true.mp hb
        exact absurd (hA e he) (by simp [hde])
    rw [if_neg (by simp [hd])]
    have h2 : es.any (fun e => e.procedural && exceeds_sleep_threshold vs ws e) = false := by
      cases hb : es.any (fun e => e.procedural && exceeds_sleep_threshold vs ws e)
      · rfl
      · obtain ⟨e, he, hpe⟩ := List.any_eq_true.mp hb
        rw [Bool.and_eq_true] at hpe
        have hle := (exceeds_sleep_threshold_false_iff vs ws e).mpr (hB e he hpe.1)
        rw [hle] at hpe
        exact absurd hpe.2 (by simp)
    simp [h2]

/-- C8 counterexample: a procedural body whose squared speed equals the sleep
threshold exactly.  `could_go_to_sleep` returns true (the code uses a strict
`>` test), but the claim's strict predicate `|v|² < v_sleep²` is false. -/
theorem could_go_to_sleep_strict_counterexample :
    could_go_to_sleep 1 1
      [{ procedural := true, sleeping_disabled := false,
         linvel := some ⟨1, 0, 0⟩, angvel := some Vec3.zero, sleeping := false }] = true ∧
    ¬ sleep_pred_strict 1 1
      [{ procedural := true, sleeping_disabled := false,
         linvel := some ⟨1, 0, 0⟩, angvel := some Vec3.zero, sleeping := false }] := by
  constructor
  · norm_num [could_go_to_sleep, exceeds_sleep_threshold, Vec3.length_sqr, Vec3.dot,
      Vec3.zero]
  · intro h
    have h1 := (h.2 _ (List.mem_singleton.mpr rfl) rfl ⟨1, 0, 0⟩ Vec3.zero rfl rfl).1
    norm_num [Vec3.length_sqr, Vec3.dot] at h1

/-- C8 (amended): `could_go_to_sleep` returns true iff no entity carries a
`sleeping_disabled_tag` and every procedural body satisfies `|v|² ≤ v_sleep²`
and `|ω|² ≤ ω_sleep²` (the code compares with strict `>`, so the boundary is
inclusive); and when the predicate has held for more than
`island_time_to_sleep` of simulation time, `go_to_sleep` runs, tags the island
entity, and zeroes the velocities of every procedural body while assigning
`sleeping_tag` to all of them. -/
theorem could_go_to_sleep_and_go_to_sleep (vs ws tts it ts : ℚ)
    (reg : island_registry) :
    (could_go_to_sleep vs ws reg.entities = true ↔ sleep_pred vs ws reg.entities) ∧
    ((go_to_sleep reg).island_sleeping = true ∧
     ∀ e ∈ (go_to_sleep reg).entities, e.procedural = true →
       e.sleeping = true ∧
       (e.linvel = none ∨ e.linvel = some Vec3.zero) ∧
       (e.angvel = none ∨ e.angvel = some Vec3.zero)) ∧
    (could_go_to_sleep vs ws reg.entities = true → tts < it - ts →
      maybe_go_to_sleep vs ws tts it (some ts) reg = (go_to_sleep reg, none)) := by
  refine ⟨could_go_to_sleep_iff vs ws reg.entities, ⟨rfl, ?_⟩, ?_⟩
  · intro e he hp
    simp only [go_to_sleep, List.mem_map] at he
    obtain ⟨e0, _, rfl⟩ := he
    by_cases hp0 : e0.procedural = true
    · rw [if_pos hp0]
      refine ⟨rfl, ?_, ?_⟩
      · rcases e0.linvel with _ | v
        · exact Or.inl rfl
        · exact Or.inr rfl
      · rcases e0.angvel with _ | w
        · exact Or.inl rfl
        · exact Or.inr rfl
    · rw [if_neg hp0] at hp ⊢
      exact absurd hp hp0
  · intro hc ht
    unfold maybe_go_to_sleep
    rw [if_pos hc]
    simp only
    rw [if_pos ht]

/-- C9: `make_rigidbody` gives non-dynamic bodies sentinel mass and inertia
with zero inverses, gives static bodies zero velocities, and for dynamic
bodies asserts `mass > 0` and positive inertia diagonals before assigning the
reciprocal mass and inertia. -/
theorem make_rigidbody_mass_inertia (scalar_max : ℚ) (d : rigidbody_def) :
    (d.kind ≠ rigidbody_kind.rb_dynamic →
      make_rigidbody scalar_max d = some
        { mass := scalar_max, mass_inv := 0,
          inertia := ⟨scalar_max, scalar_max, scalar_max⟩,
          inertia_inv := Vec3.zero, inertia_world_inv := Mat3.zero,
          linvel := if d.kind = rigidbody_kind.rb_static then Vec3.zero else d.linvel,
          angvel := if d.kind = rigidbody_kind.rb_static then Vec3.zero else d.angvel,
          has_linacc := false, linacc := d.gravity }) ∧
    (d.kind = rigidbody_kind.rb_static → ∀ c, make_rigidbody scalar_max d = some c →
      c.linvel = Vec3.zero ∧ c.angvel = Vec3.zero) ∧
    (d.kind = rigidbody_kind.rb_dynamic →
      ((make_rigidbody scalar_max d).isSome ↔
        0 < d.mass ∧ 0 < d.inertia.x ∧ 0 < d.inertia.y ∧ 0 < d.inertia.z) ∧
      (∀ c, make_rigidbody scalar_max d = some c →
        c.mass = d.mass ∧ c.mass_inv = 1 / d.mass ∧ c.inertia = d.inertia ∧
        c.inertia_inv = Vec3.recip d.inertia ∧
        c.inertia_world_inv = diagonal (Vec3.recip d.inertia))) := by
  refine ⟨?_, ?_, ?_⟩
  · intro hk
    simp [make_rigidbody, hk]
  · intro hs c hc
    have hk : d.kind ≠ rigidbody_kind.rb_dynamic := by rw [hs]; decide
    simp [make_rigidbody, hk, hs] at hc
    rw [← hc]
    exact ⟨rfl, rfl⟩
  · intro hk
    constructor
    · by_cases hP : 0 < d.mass ∧ 0 < d.inertia.x ∧ 0 < d.inertia.y ∧ 0 < d.inertia.z
      · simp [make_rigidbody, hk, hP]
      · simp [make_rigidbody, hk, hP]
    · intro c hc
      by_cases hP : 0 < d.mass ∧ 0 < d.inertia.x ∧ 0 < d.inertia.y ∧ 0 < d.inertia.z
      · simp [make_rigidbody, hk, hP] at hc
        rw [← hc]
        simp [hk]
      · simp [make_rigidbody, hk, hP] at hc

end Edyn
